import Mathlib

set_option maxHeartbeats 1000000

/-!
Shallow embedding of the multicomponent shortcut distillation design
engine (src/app/core/compound.py, src/app/core/thermodynamics.py,
src/app/core/shortcut_methods.py).  Floating-point arithmetic is
modelled by exact arithmetic in a linear ordered field, instantiated at
ℚ for executable checks and at ℝ for the analytic correlations.
External solver calls (scipy brentq and fsolve) are modelled by
explicit solver parameters returning an Option, where none models the
exception path of the corresponding try/except block in the source.
-/

/-- Model of the Compound class (compound.py): a chemical species with
a normal boiling point and a provider-supplied vapor-pressure function;
psat returning none models the thermo provider yielding an undefined
(None) value at that temperature. -/
structure Compound (K : Type*) where
  Tb : K
  psat : K → Option K

variable {K : Type*} [LinearOrderedField K] {n m : ℕ}

/-- Compound.vapor_pressure: the source returns `Psat if Psat else
1e-10`, so the 1e-10 floor is substituted exactly when the provider
value is falsy, i.e. None or zero. -/
def Compound.vapor_pressure (c : Compound K) (T : K) : K :=
  match c.psat T with
  | none => 1 / 10 ^ 10
  | some v => if v = 0 then 1 / 10 ^ 10 else v

/-- Compound.K_value: K = Psat(T) / P. -/
def Compound.K_value (c : Compound K) (T P : K) : K :=
  c.vapor_pressure T / P

/-- ThermodynamicPackage.K_values over a non-empty component vector. -/
def K_values (cs : Fin (n + 1) → Compound K) (T P : K) : Fin (n + 1) → K :=
  fun i => (cs i).K_value T P

/-- ThermodynamicPackage.relative_volatilities at the default
ref_index = -1, that is K_i divided by the K-value of the last
component. -/
def relative_volatilities (cs : Fin (n + 1) → Compound K) (T P : K) : Fin (n + 1) → K :=
  fun i => K_values cs T P i / K_values cs T P (Fin.last n)

/-- ShortcutDistillation._identify_key_components: sort the component
indices by ascending relative volatility (np.argsort) and reverse,
then scan the descending list for the first index whose feed fraction
strictly exceeds the 0.01 threshold (the light key) and scan the
reversed, ascending list likewise for the heavy key.  A none in the
returned pair models the corresponding Python attribute never being
assigned because no index passes the threshold. -/
def identify_key_components (alpha zF : Fin n → K) : Option (Fin n) × Option (Fin n) :=
  let sortedDesc := (List.insertionSort (fun i j => alpha i ≤ alpha j) (List.finRange n)).reverse
  (sortedDesc.find? fun i => decide ((1 / 100 : K) < zF i),
   sortedDesc.reverse.find? fun i => decide ((1 / 100 : K) < zF i))

/-- Distillate component flows d of material_balance: keys split by the
recovery fractions, non-keys routed by volatility relative to the keys.
The heavy-key test comes first because in the source the assignment to
d[HK_idx] happens after the one to d[LK_idx] and therefore wins when
the two indices coincide. -/
def mb_d (F : K) (z alpha : Fin n → K) (LK HK : Fin n) (rLK rHK : K) : Fin n → K :=
  fun i =>
    if i = HK then F * z HK - rHK * (F * z HK)
    else if i = LK then rLK * (F * z LK)
    else if alpha LK < alpha i then F * z i
    else if alpha i < alpha HK then 0
    else (alpha i - alpha HK) / (alpha LK - alpha HK) * (F * z i)

/-- Bottoms component flows b of material_balance, mirroring mb_d. -/
def mb_b (F : K) (z alpha : Fin n → K) (LK HK : Fin n) (rLK rHK : K) : Fin n → K :=
  fun i =>
    if i = HK then rHK * (F * z HK)
    else if i = LK then F * z LK - rLK * (F * z LK)
    else if alpha LK < alpha i then 0
    else if alpha i < alpha HK then F * z i
    else (1 - (alpha i - alpha HK) / (alpha LK - alpha HK)) * (F * z i)

/-- ShortcutDistillation.material_balance: D and B are the sums of the
two product-flow vectors and the product compositions are the flows
divided by the corresponding total; returns (D, B, x_D, x_B). -/
def material_balance (F : K) (z alpha : Fin n → K) (LK HK : Fin n) (rLK rHK : K) :
    K × K × (Fin n → K) × (Fin n → K) :=
  let d := mb_d F z alpha LK HK rLK rHK
  let b := mb_b F z alpha LK HK rLK rHK
  let D := ∑ i, d i
  let B := ∑ i, b i
  (D, B, fun i => d i / D, fun i => b i / B)

/-- ThermodynamicPackage.bubble_temperature.  solverRes models the
outcome of the try block around scipy fsolve: some T is a temperature
returned by the solver, none is the exception path.  The default
initial guess is the composition-weighted mean boiling point, computed
before the try block. -/
def bubble_temperature (cs : Fin (n + 1) → Compound K) (P : K) (x : Fin (n + 1) → K)
    (Tguess : Option K) (solverRes : Option K) : K × (Fin (n + 1) → K) :=
  let Tg := Tguess.getD (∑ i, x i * (cs i).Tb)
  match solverRes with
  | some T =>
      let y := fun i => K_values cs T P i * x i
      (T, fun i => y i / ∑ j, y j)
  | none => (Tg, x)

/-- ThermodynamicPackage.dew_temperature, symmetric to
bubble_temperature with x = y / K. -/
def dew_temperature (cs : Fin (n + 1) → Compound K) (P : K) (y : Fin (n + 1) → K)
    (Tguess : Option K) (solverRes : Option K) : K × (Fin (n + 1) → K) :=
  let Tg := Tguess.getD (∑ i, y i * (cs i).Tb)
  match solverRes with
  | some T =>
      let x := fun i => y i / K_values cs T P i
      (T, fun i => x i / ∑ j, x j)
  | none => (Tg, y)

/-- Underwood auxiliary equation, equation1 in underwood_method:
Σ α_i z_i / (α_i − θ) − (1 − q). -/
noncomputable def underwood_equation1 (alpha zF : Fin n → ℝ) (q θ : ℝ) : ℝ :=
  (∑ i, alpha i * zF i / (alpha i - θ)) - (1 - q)

/-- The R_min computed from a given Underwood root θ:
max(Σ α_i x_D_i / (α_i − θ) − 1, 0.5). -/
noncomputable def underwood_Rmin (alpha xD : Fin n → ℝ) (θ : ℝ) : ℝ :=
  max ((∑ i, alpha i * xD i / (alpha i - θ)) - 1) (1 / 2)

/-- ShortcutDistillation.underwood_method.  The bracketed root search,
scipy brentq on the interval (α_HK + 0.01, α_LK − 0.01), is modelled by
the solver parameter; none models the except path, where θ falls back
to the midpoint (α_HK + α_LK)/2.  Returns (R_min, θ). -/
noncomputable def underwood_method (solver : (ℝ → ℝ) → ℝ → ℝ → Option ℝ)
    (alpha zF xD : Fin n → ℝ) (LK HK : Fin n) (q : ℝ) : ℝ × ℝ :=
  let aHK := alpha HK
  let aLK := alpha LK
  let θ := (solver (underwood_equation1 alpha zF q) (aHK + 1 / 100) (aLK - 1 / 100)).getD
    ((aHK + aLK) / 2)
  (underwood_Rmin alpha xD θ, θ)

/-- Gilliland abscissa X = (R − R_min)/(R + 1). -/
noncomputable def gX (Rmin R : ℝ) : ℝ := (R - Rmin) / (R + 1)

/-- Gilliland empirical exponent
(1 + 54.4 X)(X − 1) / ((11 + 117.2 X) sqrt(X + 1e-10)). -/
noncomputable def gExpo (X : ℝ) : ℝ :=
  (1 + 272 / 5 * X) * (X - 1) / ((11 + 586 / 5 * X) * Real.sqrt (X + 1 / 10 ^ 10))

/-- Gilliland ordinate Y = 1 − exp(exponent). -/
noncomputable def gY (X : ℝ) : ℝ := 1 - Real.exp (gExpo X)

/-- ShortcutDistillation.gilliland_correlation:
N = N_min + Y / (1 − Y + 1e-10). -/
noncomputable def gilliland_correlation (Nmin Rmin R : ℝ) : ℝ :=
  Nmin + gY (gX Rmin R) / (1 - gY (gX Rmin R) + 1 / 10 ^ 10)

/-- Kirkbride plate-ratio N_R/N_S = exp(0.206 ln(ratio_term + 1e-10))
with ratio_term = (B/D)(z_HK/z_LK)(x_B_LK/x_D_HK)^2. -/
noncomputable def kirkbride_ratio (B D zHK zLK xBLK xDHK : ℝ) : ℝ :=
  Real.exp (103 / 500 * Real.log (B / D * (zHK / zLK) * (xBLK / xDHK) ^ 2 + 1 / 10 ^ 10))

/-- ShortcutDistillation.kirkbride_equation: N_S = N_total/(1 + N_R/N_S),
N_R = N_total − N_S; returns (ceil N_R, floor N_S, feed_stage) with
feed_stage = ceil N_R + 1. -/
noncomputable def kirkbride_equation (B D zHK zLK xBLK xDHK Ntot : ℝ) : ℤ × ℤ × ℤ :=
  let r := kirkbride_ratio B D zHK zLK xBLK xDHK
  let NS := Ntot / (1 + r)
  let NR := Ntot - NS
  (⌈NR⌉, ⌊NS⌋, ⌈NR⌉ + 1)

/-- Engine state, a ShortcutDistillation instance: the immutable feed
data fixed at construction, the property provider and external root
solver, and the fields the Python methods cache on self during a
pipeline run. -/
structure Engine (m : ℕ) where
  compounds : Fin (m + 1) → Compound ℝ
  F : ℝ
  zF : Fin (m + 1) → ℝ
  P : ℝ
  LK : Fin (m + 1)
  HK : Fin (m + 1)
  solver : (ℝ → ℝ) → ℝ → ℝ → Option ℝ
  D : ℝ
  B : ℝ
  xD : Fin (m + 1) → ℝ
  xB : Fin (m + 1) → ℝ
  Nmin : ℝ
  alphaAvg : ℝ
  Rmin : ℝ
  theta : ℝ

/-- The aggregated results dictionary returned by
complete_shortcut_design. -/
structure DesignResult (m : ℕ) where
  D : ℝ
  B : ℝ
  xD : Fin (m + 1) → ℝ
  xB : Fin (m + 1) → ℝ
  Nmin : ℝ
  alphaAvg : ℝ
  Rmin : ℝ
  theta : ℝ
  R : ℝ
  Ntheoretical : ℝ
  Nreal : ℤ
  efficiency : ℝ
  NR : ℤ
  NS : ℤ
  feedStage : ℤ
  L : ℝ
  V : ℝ
  Lprime : ℝ
  Vprime : ℝ
  recoveryLKD : ℝ
  recoveryHKB : ℝ

/-- np.mean of the component boiling points. -/
noncomputable def engine_Tavg (e : Engine m) : ℝ :=
  (∑ i, (e.compounds i).Tb) / (m + 1)

/-- ShortcutDistillation.complete_shortcut_design: the pipeline stages
in source order (material balance, Fenske, Underwood, Gilliland, real
plate count, Kirkbride, internal flows).  The returned Engine carries
the instance fields the Python methods assign along the way. -/
noncomputable def complete_shortcut_design (e : Engine m) (rLK rHK Rfac q eff : ℝ) :
    DesignResult m × Engine m :=
  let alpha := relative_volatilities e.compounds (engine_Tavg e) e.P
  let mb := material_balance e.F e.zF alpha e.LK e.HK rLK rHK
  let mD := mb.1
  let mB := mb.2.1
  let mxD := mb.2.2.1
  let mxB := mb.2.2.2
  let Tf := ((e.compounds e.LK).Tb + (e.compounds e.HK).Tb) / 2
  let alphaF := relative_volatilities e.compounds Tf e.P
  let aLKHK := alphaF e.LK / alphaF e.HK
  let Nmin := Real.log (mxD e.LK / mxD e.HK / (mxB e.LK / mxB e.HK)) / Real.log aLKHK
  let uw := underwood_method e.solver alpha e.zF mxD e.LK e.HK q
  let Rmin := uw.1
  let θ := uw.2
  let R := Rfac * Rmin
  let Ntheo := gilliland_correlation Nmin Rmin R
  let Nreal : ℤ := ⌈Ntheo / eff⌉
  let kb := kirkbride_equation mB mD (e.zF e.HK) (e.zF e.LK) (mxB e.LK) (mxD e.HK) (Nreal : ℝ)
  let L := R * mD
  let V := L + mD
  ({ D := mD
     B := mB
     xD := mxD
     xB := mxB
     Nmin := Nmin
     alphaAvg := aLKHK
     Rmin := Rmin
     theta := θ
     R := R
     Ntheoretical := Ntheo
     Nreal := Nreal
     efficiency := eff
     NR := kb.1
     NS := kb.2.1
     feedStage := kb.2.2
     L := L
     V := V
     Lprime := L + e.F * q
     Vprime := V
     recoveryLKD := rLK
     recoveryHKB := rHK },
   { e with
      D := mD
      B := mB
      xD := mxD
      xB := mxB
      Nmin := Nmin
      alphaAvg := aLKHK
      Rmin := Rmin
      theta := θ })

/-- The modelled vapor pressure is never zero: the 1e-10 floor replaces
the falsy provider values (None and 0) and any other value is returned
unchanged. -/
theorem vapor_pressure_ne_zero (c : Compound K) (T : K) : c.vapor_pressure T ≠ 0 := by
  unfold Compound.vapor_pressure
  cases h : c.psat T with
  | none =>
    show (1 / 10 ^ 10 : K) ≠ 0
    norm_num
  | some v =>
    show (if v = 0 then 1 / 10 ^ 10 else v) ≠ 0
    split_ifs with hv
    · norm_num
    · exact hv

/-- Claim C3: for every feed quality q and every material-balance
state, the R_min component returned by underwood_method is at least
0.5; the floor is applied after the root search, so it holds whether
the bracketing succeeded (solver returned some root) or fell back to
the interval midpoint. -/
theorem underwood_Rmin_floor (solver : (ℝ → ℝ) → ℝ → ℝ → Option ℝ)
    (alpha zF xD : Fin n → ℝ) (LK HK : Fin n) (q : ℝ) :
    1 / 2 ≤ (underwood_method solver alpha zF xD LK HK q).1 :=
  le_max_right _ _

/-- Claim C6: when the nonlinear solve raises (solverRes = none),
bubble_temperature returns the pair (T_guess, x) unchanged — with the
explicitly supplied guess or with the default composition-weighted mean
boiling point — and dew_temperature behaves symmetrically; the
functions are total, so no error propagates. -/
theorem bubble_dew_fallback (cs : Fin (n + 1) → Compound ℝ) (P : ℝ)
    (x y : Fin (n + 1) → ℝ) (t t' : ℝ) :
    bubble_temperature cs P x (some t) none = (t, x) ∧
    dew_temperature cs P y (some t') none = (t', y) ∧
    bubble_temperature cs P x none none = (∑ i, x i * (cs i).Tb, x) ∧
    dew_temperature cs P y none none = (∑ i, y i * (cs i).Tb, y) :=
  ⟨rfl, rfl, rfl, rfl⟩

/-- Claim C10: with the default reference index (the last, heaviest
component), relative_volatilities returns the vector of K_i divided by
the last K-value, and its last entry is exactly 1 whenever P > 0. -/
theorem relative_volatilities_last_entry (cs : Fin (n + 1) → Compound ℝ) (T P : ℝ)
    (hP : 0 < P) :
    (∀ i, relative_volatilities cs T P i
        = (cs i).K_value T P / (cs (Fin.last n)).K_value T P) ∧
    relative_volatilities cs T P (Fin.last n) = 1 := by
  constructor
  · intro i
    rfl
  · show (cs (Fin.last n)).K_value T P / (cs (Fin.last n)).K_value T P = 1
    apply div_self
    unfold Compound.K_value
    exact div_ne_zero (vapor_pressure_ne_zero _ _) (ne_of_gt hP)

/-- Concrete one-component provider used to witness claim C10. -/
def csW : Fin 1 → Compound ℝ := fun _ => ⟨373, fun _ => some 2⟩

/-- Witness for claim C10 at a concrete provider, T = 300, P = 1. -/
theorem relative_volatilities_last_entry_witness :
    (0 : ℝ) < 1 ∧
    ((∀ i, relative_volatilities csW 300 1 i
        = (csW i).K_value 300 1 / (csW (Fin.last 0)).K_value 300 1) ∧
    relative_volatilities csW 300 1 (Fin.last 0) = 1) :=
  ⟨by norm_num, relative_volatilities_last_entry csW 300 1 (by norm_num)⟩

/-- Claim C9: invoking complete_shortcut_design a second time with the
identical arguments on the engine state returned by the first run
yields the identical DesignResult; the instance fields cached by the
first run do not alter the second output. -/
theorem complete_shortcut_design_idempotent (e : Engine m) (rLK rHK Rfac q eff : ℝ) :
    (complete_shortcut_design ((complete_shortcut_design e rLK rHK Rfac q eff).2)
        rLK rHK Rfac q eff).1
      = (complete_shortcut_design e rLK rHK Rfac q eff).1 :=
  rfl

/-- Relative volatilities used in the claim C2 evaluation. -/
def alphaC2 : Fin 3 → ℚ := ![3, 2, 1]

/-- Feed composition for claim C2: it sums to 1 but only component 0
exceeds the 0.01 significance threshold. -/
def zC2 : Fin 3 → ℚ := ![99 / 100, 1 / 200, 1 / 200]

/-- Claim C2 evaluation: with exactly one component above the
threshold, key identification completes normally and silently selects
the same index for both the light and the heavy key, instead of
surfacing a configuration error. -/
theorem identify_key_components_single_significant :
    identify_key_components alphaC2 zC2 = (some 0, some 0) := by
  have h3 : List.finRange 3 = [0, 1, 2] := by decide
  norm_num [identify_key_components, h3, List.insertionSort, List.orderedInsert,
    List.find?, alphaC2, zC2]

/-- Component whose provider reports a strictly negative vapor
pressure, used to refute claim C7. -/
def cNeg : Compound ℝ := ⟨300, fun _ => some (-1)⟩

/-- Claim C7 counterexample: a strictly negative provider value is
truthy, so the 1e-10 floor is not substituted and the K-value at P = 1
is −1, not strictly positive. -/
theorem K_value_negative_psat :
    cNeg.K_value 300 1 = -1 ∧ ¬ (0 < cNeg.K_value 300 1) := by
  have h : cNeg.vapor_pressure 300 = -1 := by
    show (if (-1 : ℝ) = 0 then 1 / 10 ^ 10 else -1) = -1
    norm_num
  have hK : cNeg.K_value 300 1 = -1 := by
    show cNeg.vapor_pressure 300 / 1 = -1
    rw [h]
    norm_num
  exact ⟨hK, by rw [hK]; norm_num⟩

/-- Claim C7 (amended): the floor 1e-10 is substituted exactly when the
provider value is undefined (None) or zero, and the K-value is strictly
positive for every P > 0 whenever the provider never reports a strictly
negative vapor pressure. -/
theorem vapor_pressure_floor_amended (c : Compound ℝ) (T P : ℝ) (hP : 0 < P) :
    ((c.psat T = none ∨ c.psat T = some 0) → c.vapor_pressure T = 1 / 10 ^ 10) ∧
    ((∀ v, c.psat T = some v → 0 ≤ v) → 0 < c.K_value T P) := by
  constructor
  · rintro (h | h)
    · unfold Compound.vapor_pressure
      rw [h]
    · unfold Compound.vapor_pressure
      rw [h]
      norm_num
  · intro hv
    have hpos : 0 < c.vapor_pressure T := by
      unfold Compound.vapor_pressure
      cases h : c.psat T with
      | none =>
        show (0 : ℝ) < 1 / 10 ^ 10
        norm_num
      | some v =>
        show (0 : ℝ) < if v = 0 then 1 / 10 ^ 10 else v
        split_ifs with h0
        · norm_num
        · exact lt_of_le_of_ne (hv v h) (Ne.symm h0)
    exact div_pos hpos hP

/-- Component with an undefined vapor pressure, witnessing the amended
claim C7. -/
def cFloor : Compound ℝ := ⟨300, fun _ => none⟩

/-- Witness for the amended claim C7 at a concrete component with an
undefined vapor pressure and P = 1. -/
theorem vapor_pressure_floor_amended_witness :
    (0 : ℝ) < 1 ∧
    (((cFloor.psat 300 = none ∨ cFloor.psat 300 = some 0) →
        cFloor.vapor_pressure 300 = 1 / 10 ^ 10) ∧
    ((∀ v, cFloor.psat 300 = some v → 0 ≤ v) → 0 < cFloor.K_value 300 1)) :=
  ⟨by norm_num, vapor_pressure_floor_amended cFloor 300 1 (by norm_num)⟩

/-- Componentwise conservation: for each component the distillate and bottoms
flows sum to its feed flow; this holds for every branch of the routing,
including the interpolation branch, by pure algebra. -/
theorem mb_d_add_mb_b (F : K) (z alpha : Fin n → K) (LK HK : Fin n) (rLK rHK : K)
    (i : Fin n) :
    mb_d F z alpha LK HK rLK rHK i + mb_b F z alpha LK HK rLK rHK i = F * z i := by
  unfold mb_d mb_b
  split_ifs with h1 h2 h3 h4
  · subst h1; ring
  · subst h2; ring
  · ring
  · ring
  · ring

/-- All distillate component flows are nonnegative for admissible
recoveries and ordered keys. -/
theorem mb_d_nonneg (F : K) (z alpha : Fin n → K) (LK HK : Fin n) (rLK rHK : K)
    (hα : alpha HK < alpha LK) (hF : 0 < F) (hz : ∀ i, 0 ≤ z i)
    (hrLK0 : 0 ≤ rLK) (hrHK1 : rHK ≤ 1) (i : Fin n) :
    0 ≤ mb_d F z alpha LK HK rLK rHK i := by
  have hFz : ∀ j, 0 ≤ F * z j := fun j => mul_nonneg hF.le (hz j)
  unfold mb_d
  split_ifs with h1 h2 h3 h4
  · nlinarith [mul_nonneg (sub_nonneg.2 hrHK1) (hFz HK)]
  · exact mul_nonneg hrLK0 (hFz LK)
  · exact hFz i
  · exact le_refl 0
  · exact mul_nonneg
      (div_nonneg (sub_nonneg.2 (not_lt.1 h4)) (sub_nonneg.2 hα.le)) (hFz i)

/-- All bottoms component flows are nonnegative for admissible
recoveries and ordered keys. -/
theorem mb_b_nonneg (F : K) (z alpha : Fin n → K) (LK HK : Fin n) (rLK rHK : K)
    (hα : alpha HK < alpha LK) (hF : 0 < F) (hz : ∀ i, 0 ≤ z i)
    (hrHK0 : 0 ≤ rHK) (hrLK1 : rLK ≤ 1) (i : Fin n) :
    0 ≤ mb_b F z alpha LK HK rLK rHK i := by
  have hFz : ∀ j, 0 ≤ F * z j := fun j => mul_nonneg hF.le (hz j)
  unfold mb_b
  split_ifs with h1 h2 h3 h4
  · exact mul_nonneg hrHK0 (hFz HK)
  · nlinarith [mul_nonneg (sub_nonneg.2 hrLK1) (hFz LK)]
  · exact le_refl 0
  · exact hFz i
  · exact mul_nonneg
      (sub_nonneg.2 ((div_le_one (sub_pos.2 hα)).2
        (sub_le_sub_right (not_lt.1 h3) (alpha HK)))) (hFz i)

/-- Claim C1: for a positive feed, a composition summing to 1, ordered
distinct keys both above the significance threshold, and recovery
fractions in (0, 1], material_balance conserves matter: D + B = F and
D x_D i + B x_B i = F z i for every component i, exactly in real
arithmetic (hence within any floating tolerance). -/
theorem material_balance_conservation (F : ℝ) (z alpha : Fin n → ℝ) (LK HK : Fin n)
    (rLK rHK : ℝ) (hkey : LK ≠ HK) (hα : alpha HK < alpha LK) (hF : 0 < F)
    (hz : ∀ i, 0 ≤ z i) (hsum : ∑ i, z i = 1)
    (hzLK : 1 / 100 < z LK) (hzHK : 1 / 100 < z HK)
    (hrLK0 : 0 < rLK) (hrLK1 : rLK ≤ 1) (hrHK0 : 0 < rHK) (hrHK1 : rHK ≤ 1) :
    (material_balance F z alpha LK HK rLK rHK).1
        + (material_balance F z alpha LK HK rLK rHK).2.1 = F ∧
    ∀ i, (material_balance F z alpha LK HK rLK rHK).1
            * (material_balance F z alpha LK HK rLK rHK).2.2.1 i
        + (material_balance F z alpha LK HK rLK rHK).2.1
            * (material_balance F z alpha LK HK rLK rHK).2.2.2 i
        = F * z i := by
  have hdn : ∀ i, 0 ≤ mb_d F z alpha LK HK rLK rHK i :=
    mb_d_nonneg F z alpha LK HK rLK rHK hα hF hz hrLK0.le hrHK1
  have hbn : ∀ i, 0 ≤ mb_b F z alpha LK HK rLK rHK i :=
    mb_b_nonneg F z alpha LK HK rLK rHK hα hF hz hrHK0.le hrLK1
  have hdLK : 0 < mb_d F z alpha LK HK rLK rHK LK := by
    unfold mb_d
    rw [if_neg hkey, if_pos rfl]
    exact mul_pos hrLK0 (mul_pos hF (lt_trans (by norm_num) hzLK))
  have hbHK : 0 < mb_b F z alpha LK HK rLK rHK HK := by
    unfold mb_b
    rw [if_pos rfl]
    exact mul_pos hrHK0 (mul_pos hF (lt_trans (by norm_num) hzHK))
  have hD : 0 < ∑ i, mb_d F z alpha LK HK rLK rHK i :=
    lt_of_lt_of_le hdLK (Finset.single_le_sum (fun i _ => hdn i) (Finset.mem_univ LK))
  have hB : 0 < ∑ i, mb_b F z alpha LK HK rLK rHK i :=
    lt_of_lt_of_le hbHK (Finset.single_le_sum (fun i _ => hbn i) (Finset.mem_univ HK))
  constructor
  · show (∑ i, mb_d F z alpha LK HK rLK rHK i)
        + (∑ i, mb_b F z alpha LK HK rLK rHK i) = F
    rw [← Finset.sum_add_distrib]
    calc ∑ i, (mb_d F z alpha LK HK rLK rHK i + mb_b F z alpha LK HK rLK rHK i)
        = ∑ i, F * z i :=
          Finset.sum_congr rfl fun i _ => mb_d_add_mb_b F z alpha LK HK rLK rHK i
      _ = F * ∑ i, z i := by rw [Finset.mul_sum]
      _ = F := by rw [hsum, mul_one]
  · intro i
    show (∑ j, mb_d F z alpha LK HK rLK rHK j)
            * (mb_d F z alpha LK HK rLK rHK i / ∑ j, mb_d F z alpha LK HK rLK rHK j)
        + (∑ j, mb_b F z alpha LK HK rLK rHK j)
            * (mb_b F z alpha LK HK rLK rHK i / ∑ j, mb_b F z alpha LK HK rLK rHK j)
        = F * z i
    rw [mul_comm (∑ j, mb_d F z alpha LK HK rLK rHK j) _,
      div_mul_cancel₀ _ hD.ne',
      mul_comm (∑ j, mb_b F z alpha LK HK rLK rHK j) _,
      div_mul_cancel₀ _ hB.ne']
    exact mb_d_add_mb_b F z alpha LK HK rLK rHK i

/-- Feed composition used to witness claim C1. -/
noncomputable def zW1 : Fin 3 → ℝ := fun i => if i = 0 then 1 / 2 else 1 / 4

/-- Relative volatilities used to witness claim C1. -/
noncomputable def alphaW1 : Fin 3 → ℝ := fun i => if i = 0 then 4 else if i = 1 then 2 else 1

/-- Witness for claim C1: three components, F = 2, LK = 0, HK = 2,
recoveries 0.9 and 0.8; all hypotheses hold and the conservation
conclusion follows by the theorem. -/
theorem material_balance_conservation_witness :
    ((0 : Fin 3) ≠ 2 ∧ alphaW1 2 < alphaW1 0 ∧ (0 : ℝ) < 2 ∧ (∀ i, 0 ≤ zW1 i) ∧
      (∑ i, zW1 i) = 1 ∧ 1 / 100 < zW1 0 ∧ 1 / 100 < zW1 2 ∧
      (0 : ℝ) < 9 / 10 ∧ (9 : ℝ) / 10 ≤ 1 ∧ (0 : ℝ) < 4 / 5 ∧ (4 : ℝ) / 5 ≤ 1) ∧
    ((material_balance 2 zW1 alphaW1 0 2 (9 / 10) (4 / 5)).1
        + (material_balance 2 zW1 alphaW1 0 2 (9 / 10) (4 / 5)).2.1 = 2 ∧
      ∀ i, (material_balance 2 zW1 alphaW1 0 2 (9 / 10) (4 / 5)).1
              * (material_balance 2 zW1 alphaW1 0 2 (9 / 10) (4 / 5)).2.2.1 i
          + (material_balance 2 zW1 alphaW1 0 2 (9 / 10) (4 / 5)).2.1
              * (material_balance 2 zW1 alphaW1 0 2 (9 / 10) (4 / 5)).2.2.2 i
          = 2 * zW1 i) := by
  have e0 : zW1 0 = 1 / 2 := by simp [zW1]
  have e2 : zW1 2 = 1 / 4 := by simp [zW1]
  have e1 : zW1 1 = 1 / 4 := by simp [zW1]
  have a0 : alphaW1 0 = 4 := by simp [alphaW1]
  have a2 : alphaW1 2 = 1 := by simp [alphaW1]
  have hz : ∀ i, 0 ≤ zW1 i := by
    intro i
    unfold zW1
    split_ifs <;> norm_num
  have hsum : (∑ i, zW1 i) = 1 := by
    rw [Fin.sum_univ_three, e0, e1, e2]
    norm_num
  constructor
  · exact ⟨by decide, by rw [a2, a0]; norm_num, by norm_num, hz, hsum,
      by rw [e0]; norm_num, by rw [e2]; norm_num,
      by norm_num, by norm_num, by norm_num, by norm_num⟩
  · exact material_balance_conservation 2 zW1 alphaW1 0 2 (9 / 10) (4 / 5) (by decide)
      (by rw [a2, a0]; norm_num) (by norm_num) hz hsum (by rw [e0]; norm_num)
      (by rw [e2]; norm_num) (by norm_num) (by norm_num) (by norm_num) (by norm_num)

/-- Relative volatilities for the claim C4 evaluation: the keys are
components 0 (light, α = 2) and 1 (heavy, α = 1). -/
noncomputable def alphaU : Fin 2 → ℝ := fun i => if i = 0 then 2 else 1

/-- Equimolar feed composition for the claim C4 evaluation. -/
noncomputable def zU : Fin 2 → ℝ := fun _ => 1 / 2

/-- Distillate composition for the claim C4 evaluation. -/
noncomputable def xDU : Fin 2 → ℝ := fun i => if i = 0 then 9 / 10 else 1 / 10

/-- Claim C4 evaluation: at q = 0 the Underwood equation has the root
θ = 3/2 inside the bracket and changes sign across it (brentq
converges), while at q = 60 the equation is strictly positive at both
bracket ends (brentq raises and the code falls back to the midpoint
3/2 of (α_HK, α_LK)); the two runs return identical (R_min, θ) pairs,
so no field of the result records that the fallback was taken. -/
theorem underwood_fallback_indistinguishable :
    underwood_equation1 alphaU zU 0 (3 / 2) = 0 ∧
    underwood_equation1 alphaU zU 0 (alphaU 1 + 1 / 100) < 0 ∧
    0 < underwood_equation1 alphaU zU 0 (alphaU 0 - 1 / 100) ∧
    0 < underwood_equation1 alphaU zU 60 (alphaU 1 + 1 / 100) ∧
    0 < underwood_equation1 alphaU zU 60 (alphaU 0 - 1 / 100) ∧
    underwood_method (fun _ _ _ => some (3 / 2)) alphaU zU xDU 0 1 0
      = underwood_method (fun _ _ _ => none) alphaU zU xDU 0 1 60 := by
  have a0 : alphaU 0 = 2 := by simp [alphaU]
  have a1 : alphaU 1 = 1 := by simp [alphaU]
  have he : ∀ q θ : ℝ, underwood_equation1 alphaU zU q θ
      = 2 * (1 / 2) / (2 - θ) + 1 * (1 / 2) / (1 - θ) - (1 - q) := by
    intro q θ
    unfold underwood_equation1
    rw [Fin.sum_univ_two, a0, a1]
    show 2 * (1 / 2) / (2 - θ) + 1 * (1 / 2) / (1 - θ) - (1 - q)
        = 2 * (1 / 2) / (2 - θ) + 1 * (1 / 2) / (1 - θ) - (1 - q)
    rfl
  refine ⟨?_, ?_, ?_, ?_, ?_, ?_⟩
  · rw [he]; norm_num
  · rw [a1, he]; norm_num
  · rw [a0, he]; norm_num
  · rw [a1, he]; norm_num
  · rw [a0, he]; norm_num
  · have hmid : (alphaU 1 + alphaU 0) / 2 = 3 / 2 := by rw [a0, a1]; norm_num
    show (underwood_Rmin alphaU xDU (3 / 2), (3 / 2 : ℝ))
        = (underwood_Rmin alphaU xDU ((alphaU 1 + alphaU 0) / 2), (alphaU 1 + alphaU 0) / 2)
    rw [hmid]

/-- The Kirkbride plate ratio is strictly positive, being an
exponential. -/
theorem kirkbride_ratio_pos (B D zHK zLK xBLK xDHK : ℝ) :
    0 < kirkbride_ratio B D zHK zLK xBLK xDHK :=
  Real.exp_pos _

/-- Claim C5 counterexample: at N_real = 1 with a realizable material
balance (B = D = 1, equimolar feed, 0.95 recoveries giving the key
product fractions 1/20), the returned feed stage is ceil(N_R) + 1 = 2,
which exceeds N_real, so feed_stage does not lie within [1, N_real]. -/
theorem kirkbride_feed_stage_exceeds_total :
    (kirkbride_equation 1 1 (1 / 2) (1 / 2) (1 / 20) (1 / 20) 1).2.2 = 2 ∧
    ¬ ((kirkbride_equation 1 1 (1 / 2) (1 / 2) (1 / 20) (1 / 20) 1).2.2 ≤ 1) := by
  have hrpos : 0 < kirkbride_ratio 1 1 (1 / 2) (1 / 2) (1 / 20) (1 / 20) :=
    kirkbride_ratio_pos 1 1 (1 / 2) (1 / 2) (1 / 20) (1 / 20)
  have h1r : (0 : ℝ) < 1 + kirkbride_ratio 1 1 (1 / 2) (1 / 2) (1 / 20) (1 / 20) := by
    linarith
  have hNSlt : (1 : ℝ) / (1 + kirkbride_ratio 1 1 (1 / 2) (1 / 2) (1 / 20) (1 / 20)) < 1 :=
    (div_lt_one h1r).2 (by linarith)
  have hNSpos : 0 < (1 : ℝ) / (1 + kirkbride_ratio 1 1 (1 / 2) (1 / 2) (1 / 20) (1 / 20)) :=
    div_pos one_pos h1r
  have hceil :
      ⌈(1 : ℝ) - 1 / (1 + kirkbride_ratio 1 1 (1 / 2) (1 / 2) (1 / 20) (1 / 20))⌉ = 1 := by
    rw [Int.ceil_eq_iff]
    constructor
    · push_cast; linarith
    · push_cast; linarith
  have hfeed : (kirkbride_equation 1 1 (1 / 2) (1 / 2) (1 / 20) (1 / 20) 1).2.2
      = ⌈(1 : ℝ) - 1 / (1 + kirkbride_ratio 1 1 (1 / 2) (1 / 2) (1 / 20) (1 / 20))⌉ + 1 :=
    rfl
  rw [hfeed, hceil]
  exact ⟨rfl, by decide⟩

/-- Claim C5 (amended): for every N_real ≥ 1 and any material-balance
data, the reported plate counts satisfy ceil(N_R) + floor(N_S) = N_real
exactly (hence within 1), and feed_stage = ceil(N_R) + 1 lies within
[1, N_real + 1]. -/
theorem kirkbride_split_bounds (B D zHK zLK xBLK xDHK : ℝ) (Ntot : ℤ) (hN : 1 ≤ Ntot) :
    (kirkbride_equation B D zHK zLK xBLK xDHK (Ntot : ℝ)).1
        + (kirkbride_equation B D zHK zLK xBLK xDHK (Ntot : ℝ)).2.1 = Ntot ∧
    1 ≤ (kirkbride_equation B D zHK zLK xBLK xDHK (Ntot : ℝ)).2.2 ∧
    (kirkbride_equation B D zHK zLK xBLK xDHK (Ntot : ℝ)).2.2 ≤ Ntot + 1 := by
  have hrpos : 0 < kirkbride_ratio B D zHK zLK xBLK xDHK :=
    kirkbride_ratio_pos B D zHK zLK xBLK xDHK
  have h1r : (0 : ℝ) < 1 + kirkbride_ratio B D zHK zLK xBLK xDHK := by linarith
  have hNpos : (0 : ℝ) < (Ntot : ℝ) := by
    have : (0 : ℤ) < Ntot := lt_of_lt_of_le one_pos hN
    exact_mod_cast this
  have hNSpos : 0 < (Ntot : ℝ) / (1 + kirkbride_ratio B D zHK zLK xBLK xDHK) :=
    div_pos hNpos h1r
  have hNSlt : (Ntot : ℝ) / (1 + kirkbride_ratio B D zHK zLK xBLK xDHK) < (Ntot : ℝ) :=
    div_lt_self hNpos (by linarith)
  have hNRpos :
      0 < (Ntot : ℝ) - (Ntot : ℝ) / (1 + kirkbride_ratio B D zHK zLK xBLK xDHK) := by
    linarith
  have hNRle :
      (Ntot : ℝ) - (Ntot : ℝ) / (1 + kirkbride_ratio B D zHK zLK xBLK xDHK) ≤ (Ntot : ℝ) := by
    linarith
  have hfloor : ⌊(Ntot : ℝ) / (1 + kirkbride_ratio B D zHK zLK xBLK xDHK)⌋
      = ⌊-((Ntot : ℝ) - (Ntot : ℝ) / (1 + kirkbride_ratio B D zHK zLK xBLK xDHK))⌋ + Ntot := by
    rw [← Int.floor_add_int]
    congr 1
    ring
  refine ⟨?_, ?_, ?_⟩
  · show ⌈(Ntot : ℝ) - (Ntot : ℝ) / (1 + kirkbride_ratio B D zHK zLK xBLK xDHK)⌉
        + ⌊(Ntot : ℝ) / (1 + kirkbride_ratio B D zHK zLK xBLK xDHK)⌋ = Ntot
    rw [hfloor, Int.floor_neg]
    linarith
  · show 1 ≤ ⌈(Ntot : ℝ) - (Ntot : ℝ) / (1 + kirkbride_ratio B D zHK zLK xBLK xDHK)⌉ + 1
    have := Int.ceil_pos.2 hNRpos
    linarith
  · show ⌈(Ntot : ℝ) - (Ntot : ℝ) / (1 + kirkbride_ratio B D zHK zLK xBLK xDHK)⌉ + 1
        ≤ Ntot + 1
    have := Int.ceil_le.2 hNRle
    linarith

/-- Witness for the amended claim C5 at the counterexample input:
N_real = 1 and the same realizable material balance. -/
theorem kirkbride_split_bounds_witness :
    (1 : ℤ) ≤ 1 ∧
    ((kirkbride_equation 1 1 (1 / 2) (1 / 2) (1 / 20) (1 / 20) ((1 : ℤ) : ℝ)).1
        + (kirkbride_equation 1 1 (1 / 2) (1 / 2) (1 / 20) (1 / 20) ((1 : ℤ) : ℝ)).2.1 = 1 ∧
    1 ≤ (kirkbride_equation 1 1 (1 / 2) (1 / 2) (1 / 20) (1 / 20) ((1 : ℤ) : ℝ)).2.2 ∧
    (kirkbride_equation 1 1 (1 / 2) (1 / 2) (1 / 20) (1 / 20) ((1 : ℤ) : ℝ)).2.2 ≤ 1 + 1) :=
  ⟨by decide, kirkbride_split_bounds 1 1 (1 / 2) (1 / 2) (1 / 20) (1 / 20) 1 (by decide)⟩

/-- On the abscissa range [49/52, 1] reached by R_factor = 50 and
R_min ≥ 0.5, the Gilliland ordinate Y lies in [0, 3/100]. -/
theorem gY_bounds (X : ℝ) (h1 : 49 / 52 ≤ X) (h2 : X ≤ 1) :
    0 ≤ gY X ∧ gY X ≤ 3 / 100 := by
  have hX0 : (0 : ℝ) ≤ X := le_trans (by norm_num) h1
  have hs : (97 / 100 : ℝ) ≤ Real.sqrt (X + 1 / 10 ^ 10) :=
    Real.le_sqrt_of_sq_le (by nlinarith)
  have hA0 : (0 : ℝ) ≤ 1 + 272 / 5 * X := by nlinarith
  have hA : (1 + 272 / 5 * X : ℝ) ≤ 554 / 10 := by nlinarith
  have hX1 : 1 - X ≤ 3 / 52 := by linarith
  have hX1n : (0 : ℝ) ≤ 1 - X := by linarith
  have hden : (117 : ℝ) ≤ (11 + 586 / 5 * X) * Real.sqrt (X + 1 / 10 ^ 10) := by
    have hfac : (11 + 586 / 5 * (49 / 52) : ℝ) ≤ 11 + 586 / 5 * X := by nlinarith
    calc (117 : ℝ) ≤ (11 + 586 / 5 * (49 / 52)) * (97 / 100) := by norm_num
      _ ≤ (11 + 586 / 5 * X) * Real.sqrt (X + 1 / 10 ^ 10) :=
          mul_le_mul hfac hs (by norm_num) (by nlinarith)
  have hdenpos : (0 : ℝ) < (11 + 586 / 5 * X) * Real.sqrt (X + 1 / 10 ^ 10) :=
    lt_of_lt_of_le (by norm_num) hden
  have hnum_le : (1 + 272 / 5 * X) * (1 - X) ≤ 554 / 10 * (3 / 52) :=
    mul_le_mul hA hX1 hX1n (by norm_num)
  have hnum_np : (1 + 272 / 5 * X) * (X - 1) ≤ 0 := by
    nlinarith [mul_nonneg hA0 hX1n]
  have hexpo_le : gExpo X ≤ 0 := by
    unfold gExpo
    exact div_nonpos_iff.2 (Or.inr ⟨hnum_np, hdenpos.le⟩)
  have hexpo_ge : -(3 / 100) ≤ gExpo X := by
    unfold gExpo
    rw [le_div_iff₀ hdenpos]
    nlinarith [hden, hnum_le]
  constructor
  · unfold gY
    have h := Real.exp_le_one_iff.2 hexpo_le
    linarith
  · unfold gY
    have h := Real.add_one_le_exp (gExpo X)
    linarith

/-- Claim C8: with the program invariant R_min ≥ 0.5 (the Underwood
floor), evaluating the Gilliland correlation at the finite operating
reflux R = 50 R_min returns N_theoretical within 1/20 of N_min, for
every N_min; this witnesses the asymptote N_theoretical → N_min as
R_factor grows. -/
theorem gilliland_asymptote (Nmin Rmin : ℝ) (hR : 1 / 2 ≤ Rmin) :
    |gilliland_correlation Nmin Rmin (50 * Rmin) - Nmin| ≤ 1 / 20 := by
  have hden : (0 : ℝ) < 50 * Rmin + 1 := by linarith
  have hX1 : gX Rmin (50 * Rmin) ≤ 1 := by
    unfold gX
    rw [div_le_one hden]
    linarith
  have hX0 : 49 / 52 ≤ gX Rmin (50 * Rmin) := by
    unfold gX
    rw [le_div_iff₀ hden]
    linarith
  obtain ⟨hY0, hY1⟩ := gY_bounds (gX Rmin (50 * Rmin)) hX0 hX1
  have hdenY : (0 : ℝ) < 1 - gY (gX Rmin (50 * Rmin)) + 1 / 10 ^ 10 := by linarith
  have hfrac0 : 0 ≤ gY (gX Rmin (50 * Rmin))
      / (1 - gY (gX Rmin (50 * Rmin)) + 1 / 10 ^ 10) :=
    div_nonneg hY0 hdenY.le
  have hfrac1 : gY (gX Rmin (50 * Rmin))
      / (1 - gY (gX Rmin (50 * Rmin)) + 1 / 10 ^ 10) ≤ 1 / 20 := by
    rw [div_le_iff₀ hdenY]
    linarith
  have hdiff : gilliland_correlation Nmin Rmin (50 * Rmin) - Nmin
      = gY (gX Rmin (50 * Rmin)) / (1 - gY (gX Rmin (50 * Rmin)) + 1 / 10 ^ 10) := by
    unfold gilliland_correlation
    ring
  rw [hdiff, abs_le]
  exact ⟨by linarith, hfrac1⟩

/-- Witness for claim C8 at N_min = 10 and R_min = 1/2. -/
theorem gilliland_asymptote_witness :
    (1 / 2 : ℝ) ≤ 1 / 2 ∧
    |gilliland_correlation 10 (1 / 2) (50 * (1 / 2)) - 10| ≤ 1 / 20 :=
  ⟨by norm_num, gilliland_asymptote 10 (1 / 2) (by norm_num)⟩
